import Mathlib

/-!
# Verification of the Paperless-ngx n8n integration node

Shallow embedding of `src/nodes/PaperlessNgx/PaperlessNgx.node.ts`
(the `PaperlessNgx` node, in particular its `execute` method) and of the
credential type `PaperlessNgxApi` (`authenticate` / `test` declarations).

The n8n host (parameter lookup, `requestWithAuthenticationPaginated`,
`requestWithAuthentication`, `assertBinaryData`, `getBinaryStream`,
`continueOnFail`, `getInputData`) is an external collaborator; its
behaviour is modelled from the specification's description of those
capabilities.  All adapter-side control flow (request construction, the
per-item loop, the `catch` branches) is translated directly from the
TypeScript source.

Possible non-termination (the pagination loop and the item loop) is made
observable with a fuel parameter: a result of `none` means the code did
not finish within the given fuel, and a theorem of the form
`∀ fuel, … = none` states genuine divergence.
-/

/-- A JSON value (payloads, page results, upload responses are opaque JSON). -/
inductive Json where
  | null : Json
  | str : String → Json
  | num : Int → Json
  | obj : List (String × Json) → Json
  | arr : List Json → Json

/-- Stored credentials of the `paperlessNgxApi` credential type:
a base `domain` and a secret `token`. -/
structure Credentials where
  domain : String
  token : String

/-- Binary attachment metadata and content, as n8n's `IBinaryData`:
an optional storage `id` (when present the payload is streamed by
reference), the base64-embedded `data` (used when `id` is absent),
and the declared `fileName` / `mimeType`. -/
structure BinaryData where
  id : Option String
  data : String
  fileName : Option String
  mimeType : String

/-- A per-item processing error, as surfaced by the adapter. -/
inductive ProcError where
  | missingBinary : String → ProcError
  | transport : ProcError

/-- One input/execution item: a JSON payload, named binary attachments,
and (for error items produced on the continue-on-fail path) the `error`
and `pairedItem` fields the `catch` block attaches. -/
structure Item where
  json : Json
  binary : List (String × BinaryData)
  error : Option ProcError := none
  pairedItem : Option Nat := none

/-- The body of the multipart `document` part: either a stream handle
obtained from `getBinaryStream(id)` or an in-memory buffer decoded from
the embedded base64 `data`. -/
inductive UploadData where
  | stream : String → UploadData
  | buffer : String → UploadData

/-- One file part of a multipart form body (`formData` in the request
options): the form-field name, the payload, and the declared
`filename` / `contentType` options. -/
structure FilePart where
  name : String
  value : UploadData
  filename : Option String
  contentType : String

/-- An outbound HTTP request as the adapter constructs it: method, URI,
headers, query string (a list of parameters whose values may be absent,
mirroring `qs: { search: additionalFields.search }` where the value can
be `undefined`), optional multipart body, and the `json: true` flag. -/
structure Request where
  method : String
  uri : String
  headers : List (String × String) := []
  qs : List (String × Option String) := []
  formData : Option FilePart := none
  jsonFlag : Bool := true

/-- One page of the paginated `GET /api/documents/` response body:
a `results` array and the `next` cursor (URL or null). -/
structure Page where
  results : List Json
  next : Option String

/-- One output record `{ json: … }` pushed onto `returnData`. -/
structure OutputRecord where
  json : Json

/-- The `Resource` options constant of the node. -/
inductive Resource where
  | correspondent : Resource
  | documentType : Resource
  | document : Resource
deriving DecidableEq

/-- The `Operation` options constant of the node. -/
inductive Operation where
  | create : Operation
  | read : Operation
  | update : Operation
  | delete : Operation
deriving DecidableEq

/-- Replace any existing header named `k` with the value `v` (JavaScript
object merge of one key into the header object: at most one entry per
header name survives, and the merged value wins). -/
def setHeader (headers : List (String × String)) (k v : String) :
    List (String × String) :=
  headers.filter (fun p => p.1 ≠ k) ++ [(k, v)]

/-- The `authenticate` declaration of the `PaperlessNgxApi` credential
type: a generic authentication that merges the header
`Authorization: Token <token>` into the outgoing request's headers.
The merge semantics of n8n's generic credential injection is modelled
from the spec: the decorator merges this header into outbound request
headers, so every authenticated request carries it exactly once. -/
def authenticate (cred : Credentials) (req : Request) : Request :=
  { req with headers := setHeader req.headers "Authorization" ("Token " ++ cred.token) }

/-- The `test` declaration of the `PaperlessNgxApi` credential type:
a request with `baseURL = domain` and `url = /api/documents/` (method
defaults to GET), authenticated like every other request. -/
def credTestRequest (cred : Credentials) : Request :=
  authenticate cred { method := "GET", uri := cred.domain ++ "/api/documents/" }

/-- The execution environment: credentials, the once-per-run `resource`
and `operation` parameters, per-item parameter lookups (`file` resolved
with fallback `data`; `additionalFields.search`, possibly absent), the
remote server's behaviour for document-list pages and for uploads
(`none` models a transport failure of the upload request), the host's
`continueOnFail` flag, the pagination fuel, and the host's
`getInputData(i)` answer used by the `catch` block. -/
structure Env where
  cred : Credentials
  resource : Resource
  operation : Operation
  fileParam : Nat → String
  searchParam : Nat → Option String
  server : String → Page
  uploadServer : Request → Option Json
  continueOnFail : Bool
  fuel : Nat
  hostInput : Nat → List Item

/-- The first request of a Document/Read:
`GET {domain}/api/documents/` with `Accept: application/json` and
`qs: { search: additionalFields.search }`. -/
def readFirstRequest (env : Env) (idx : Nat) : Request :=
  { method := "GET"
    uri := env.cred.domain ++ "/api/documents/"
    headers := [("Accept", "application/json")]
    qs := [("search", env.searchParam idx)]
    jsonFlag := true }

/-- A follow-up pagination request: per the `paginationOptions`
(`request.url` is the response body's `next`) and the spec's description
of the host's paginated helper, the next request targets the `next` URL
verbatim and the original query parameters are not re-sent (the server
embeds them in `next`). -/
def followUpRequest (req : Request) (nextUrl : String) : Request :=
  { req with uri := nextUrl, qs := [] }

/-- Modelled from the spec: the host's `requestWithAuthenticationPaginated`
helper, specialised to the node's `paginationOptions`
(continue while the response body's `next` is non-null, next request
against that URL).  Each issued request is authenticated with the
credential's decorator.  Returns the list of (issued request, response
page) pairs in order, or `none` when the chain of non-null `next`
cursors outruns the fuel (the loop has no adapter-side bound). -/
def paginateReq (server : String → Page) (cred : Credentials) :
    Nat → Request → Option (List (Request × Page))
  | 0, _ => none
  | fuel + 1, req =>
    let areq := authenticate cred req
    let page := server areq.uri
    match page.next with
    | none => some [(areq, page)]
    | some nextUrl =>
      (paginateReq server cred fuel (followUpRequest req nextUrl)).map
        (fun rest => (areq, page) :: rest)

/-- The upload request of a Document/Create:
`POST {domain}/api/documents/post_document/` with one multipart part
named `document` whose options carry the attachment's declared
`fileName` and `mimeType`, and whose value is a stream (when the binary
data has a storage `id`) or a buffer decoded from the embedded data. -/
def createRequest (env : Env) (bd : BinaryData) : Request :=
  { method := "POST"
    uri := env.cred.domain ++ "/api/documents/post_document/"
    formData := some
      { name := "document"
        value := match bd.id with
          | some sid => UploadData.stream sid
          | none => UploadData.buffer bd.data
        filename := bd.fileName
        contentType := bd.mimeType }
    jsonFlag := true }

/-- Process one input item, following the body of the `try` block of
`execute`: dispatch on the once-per-run (resource, operation) pair,
issue the requests of that branch, and compute the output records pushed
onto `returnData`.  Returns the issued requests together with either the
records or the per-item error; `none` models divergence of the
pagination loop (fuel exhausted while `next` stays non-null). -/
def processItem (env : Env) (it : Item) (idx : Nat) :
    Option (List Request × Except ProcError (List OutputRecord)) :=
  match env.resource with
  | Resource.document =>
    match env.operation with
    | Operation.read =>
      match paginateReq env.server env.cred env.fuel (readFirstRequest env idx) with
      | none => none
      | some reqPages =>
        some (reqPages.map Prod.fst,
          Except.ok ((reqPages.map (fun rp =>
            rp.2.results.map (fun result => ({ json := result } : OutputRecord)))).flatten))
    | Operation.create =>
      match it.binary.lookup (env.fileParam idx) with
      | none => some ([], Except.error (ProcError.missingBinary (env.fileParam idx)))
      | some bd =>
        let areq := authenticate env.cred (createRequest env bd)
        match env.uploadServer areq with
        | none => some ([areq], Except.error ProcError.transport)
        | some resp =>
          some ([areq], Except.ok [{ json := Json.obj [("task_id", resp)] }])
    | _ => some ([], Except.ok [])
  | _ => some ([], Except.ok [])

/-- The record the `catch` block pushes in continue-on-fail mode:
`{ json: this.getInputData(itemIndex)[0].json, error, pairedItem: itemIndex }`.
Its `json` is whatever the host's `getInputData(itemIndex)` yields at
position 0; it carries no binary attachments. -/
def errorItem (env : Env) (idx : Nat) (e : ProcError) : Item :=
  { json := ((env.hostInput idx).head?.map Item.json).getD Json.null
    binary := []
    error := some e
    pairedItem := some idx }

/-- How a run ends: normally, with the records of `returnData`, or by the
`catch` block re-throwing in abort mode, with the failing item's index
attached to the error. -/
inductive Outcome where
  | success : List OutputRecord → Outcome
  | aborted : ProcError → Nat → Outcome

/-- The observable result of a finished run: every HTTP request issued,
and the outcome. -/
structure RunResult where
  requests : List Request
  outcome : Outcome

/-- The item loop of `execute`:
`for (let itemIndex = 0; itemIndex < items.length; itemIndex++)`, with
the loop bound `items.length` re-evaluated every iteration.  On a
per-item error, continue mode pushes an `errorItem` onto `items` (the
very list being iterated) and moves on; abort mode returns immediately
with the error and the failing index.  `none` models divergence
(fuel exhausted before the loop condition failed). -/
def execLoop (env : Env) :
    Nat → List Item → Nat → List OutputRecord → List Request → Option RunResult
  | 0, _, _, _, _ => none
  | fuel + 1, items, idx, acc, reqs =>
    match items.get? idx with
    | none => some { requests := reqs, outcome := Outcome.success acc }
    | some it =>
      match processItem env it idx with
      | none => none
      | some (newReqs, Except.ok recs) =>
        execLoop env fuel items (idx + 1) (acc ++ recs) (reqs ++ newReqs)
      | some (newReqs, Except.error e) =>
        if env.continueOnFail then
          execLoop env fuel (items ++ [errorItem env idx e]) (idx + 1) acc (reqs ++ newReqs)
        else
          some { requests := reqs ++ newReqs, outcome := Outcome.aborted e idx }

/-- The `execute` method: run the item loop from index 0 with empty
`returnData`.  `none` models a run that never returns within `fuel`
loop iterations. -/
def execute (env : Env) (items : List Item) (fuel : Nat) : Option RunResult :=
  execLoop env fuel items 0 [] []

/-- A request carries the credential's authorization header exactly once:
its headers named `Authorization` are exactly `[Token <token>]`. -/
def authedOnce (cred : Credentials) (req : Request) : Prop :=
  req.headers.filter (fun p => p.1 = "Authorization") =
    [("Authorization", "Token " ++ cred.token)]

/-- A finite chain of pages on the server: `ServerChain server us ps`
says the URLs `us` name the pages `ps` in order, each page's `next`
cursor is the following URL, and the last page's `next` is null. -/
inductive ServerChain (server : String → Page) : List String → List Page → Prop
  | last (u : String) : (server u).next = none →
      ServerChain server [u] [server u]
  | cons (u u' : String) (us : List String) (ps : List Page) :
      (server u).next = some u' → ServerChain server (u' :: us) ps →
      ServerChain server (u :: u' :: us) (server u :: ps)

/-- The declared-but-unimplemented (resource, operation) selections:
any operation on Correspondent or DocumentType, and Update/Delete on
Document. -/
def inertSelection (res : Resource) (op : Operation) : Prop :=
  res = Resource.correspondent ∨ res = Resource.documentType ∨
    (res = Resource.document ∧ (op = Operation.update ∨ op = Operation.delete))

/-! ## Concrete fixtures used by the witnesses -/

/-- Test credentials. -/
def credT : Credentials := { domain := "http://p", token := "tok" }

/-- A binary attachment with embedded data and declared metadata. -/
def bdT : BinaryData :=
  { id := none, data := "QUJD", fileName := some "a.pdf", mimeType := "application/pdf" }

/-- An item carrying the attachment under the field name `data`. -/
def itemOk : Item := { json := Json.str "ok", binary := [("data", bdT)] }

/-- An item with no binary attachment at all. -/
def itemNoBin : Item := { json := Json.str "nb", binary := [] }

/-- A two-page document listing: the first page (at the base documents
URL) points to `u2`, the second page is the last. -/
def serverT : String → Page := fun u =>
  if u = "u2" then { results := [Json.num 2], next := none }
  else if u = "http://p/api/documents/" then { results := [Json.num 1], next := some "u2" }
  else { results := [], next := none }

/-- A server that always advertises another page. -/
def serverAllNext : String → Page := fun _ => { results := [], next := some "u" }

/-- An upload server that accepts everything with task id `t1`. -/
def uploadT : Request → Option Json := fun _ => some (Json.str "t1")

/-- Environment for Document/Read runs against `serverT`. -/
def envRead : Env :=
  { cred := credT, resource := Resource.document, operation := Operation.read,
    fileParam := fun _ => "data", searchParam := fun _ => some "q",
    server := serverT, uploadServer := uploadT,
    continueOnFail := false, fuel := 3, hostInput := fun _ => [] }

/-- Environment for Document/Read runs against the never-ending server. -/
def envLoop : Env :=
  { envRead with server := serverAllNext }

/-- Environment for Document/Create runs in abort mode. -/
def envCreateAbort : Env :=
  { envRead with operation := Operation.create }

/-- Environment for Document/Create runs in continue mode. -/
def envCreateCont : Env :=
  { envCreateAbort with continueOnFail := true }

/-- Environment with an inert selection (Correspondent resource). -/
def envInert : Env :=
  { envRead with resource := Resource.correspondent }

/-- The continue-mode scenario of the specification: three input items
for Document/Create where the middle item lacks its attachment. -/
def itemsC1 : List Item := [itemOk, itemNoBin, itemOk]

/-! ## Authentication header lemmas -/

theorem setHeader_filter_eq (hs : List (String × String)) (k v : String) :
    (setHeader hs k v).filter (fun p => p.1 = k) = [(k, v)] := by
  induction hs with
  | nil => simp [setHeader]
  | cons a t ih =>
    by_cases ha : a.1 = k <;> simp [setHeader, List.filter_cons, ha]

theorem authenticate_authedOnce (cred : Credentials) (req : Request) :
    authedOnce cred (authenticate cred req) :=
  setHeader_filter_eq req.headers "Authorization" ("Token " ++ cred.token)

theorem authenticate_method (cred : Credentials) (req : Request) :
    (authenticate cred req).method = req.method := rfl

theorem authenticate_uri (cred : Credentials) (req : Request) :
    (authenticate cred req).uri = req.uri := rfl

theorem authenticate_qs (cred : Credentials) (req : Request) :
    (authenticate cred req).qs = req.qs := rfl

theorem authenticate_formData (cred : Credentials) (req : Request) :
    (authenticate cred req).formData = req.formData := rfl

/-! ## Pagination lemmas -/

/-- Unfolding equation of `paginateReq` at positive fuel. -/
theorem paginateReq_succ (server : String → Page) (cred : Credentials)
    (f : Nat) (req : Request) :
    paginateReq server cred (f + 1) req =
      match (server req.uri).next with
      | none => some [(authenticate cred req, server req.uri)]
      | some nextUrl =>
        (paginateReq server cred f (followUpRequest req nextUrl)).map
          (fun rest => (authenticate cred req, server req.uri) :: rest) := rfl

/-- Whatever the fuel, a successful pagination's first element is the
authenticated first request together with the server's page at its URI. -/
theorem paginateReq_head (server : String → Page) (cred : Credentials)
    (fuel : Nat) (req : Request) (rps : List (Request × Page))
    (h : paginateReq server cred fuel req = some rps) :
    ∃ rest, rps = (authenticate cred req, server req.uri) :: rest := by
  cases fuel with
  | zero => exact Option.noConfusion h
  | succ f =>
    rw [paginateReq_succ] at h
    split at h
    · exact ⟨[], by simp_all⟩
    · cases hrec : paginateReq server cred f (followUpRequest req _) with
      | none => rw [hrec] at h; simp at h
      | some rest =>
        rw [hrec] at h
        simp only [Option.map_some', Option.some_inj] at h
        exact ⟨rest, h.symm⟩

/-- Every request a successful pagination issues is authenticated:
it carries the authorization header exactly once. -/
theorem paginateReq_authed (server : String → Page) (cred : Credentials) :
    ∀ (fuel : Nat) (req : Request) (rps : List (Request × Page)),
      paginateReq server cred fuel req = some rps →
      ∀ rp ∈ rps, authedOnce cred rp.1 := by
  intro fuel
  induction fuel with
  | zero => intro req rps h; exact Option.noConfusion h
  | succ f ih =>
    intro req rps h rp hrp
    rw [paginateReq_succ] at h
    split at h
    · simp only [Option.some_inj] at h
      subst h
      simp only [List.mem_singleton] at hrp
      subst hrp
      exact authenticate_authedOnce cred req
    · cases hrec : paginateReq server cred f (followUpRequest req _) with
      | none => rw [hrec] at h; simp at h
      | some rest =>
        rw [hrec] at h
        simp only [Option.map_some', Option.some_inj] at h
        subst h
        rcases List.mem_cons.mp hrp with hrp | hrp
        · subst hrp; exact authenticate_authedOnce cred req
        · exact ih _ rest hrec rp hrp

/-- A server whose every response carries a non-null `next` cursor makes
the pagination loop run forever: no amount of fuel reaches a result. -/
theorem paginateReq_none_of_allNext (server : String → Page) (cred : Credentials)
    (hall : ∀ u, (server u).next ≠ none) :
    ∀ (fuel : Nat) (req : Request), paginateReq server cred fuel req = none := by
  intro fuel
  induction fuel with
  | zero => intro req; rfl
  | succ f ih =>
    intro req
    rw [paginateReq_succ]
    cases hn : (server req.uri).next with
    | none => exact absurd hn (hall _)
    | some nextUrl =>
      show Option.map (fun rest => (authenticate cred req, server req.uri) :: rest)
        (paginateReq server cred f (followUpRequest req nextUrl)) = none
      rw [ih (followUpRequest req nextUrl)]
      rfl

/-- Running the pagination loop against a finite chain of pages, with
enough fuel, issues exactly one request per page: the requested URIs are
the chain's URLs in order (the first request's URI, then each previous
response's `next`), the responses are the chain's pages in order, and
every request keeps the initial request's method. -/
theorem paginateReq_chain (server : String → Page) (cred : Credentials) :
    ∀ (us : List String) (ps : List Page), ServerChain server us ps →
    ∀ (fuel : Nat) (req : Request), ps.length ≤ fuel →
      us.head? = some req.uri →
      ∃ rps, paginateReq server cred fuel req = some rps ∧
        rps.map (fun rp => rp.1.uri) = us ∧
        rps.map Prod.snd = ps ∧
        ∀ rp ∈ rps, rp.1.method = req.method := by
  intro us ps hchain
  induction hchain with
  | last u hnone =>
    intro fuel req hfuel hhead
    simp only [List.head?_cons, Option.some_inj] at hhead
    subst hhead
    cases fuel with
    | zero => exact absurd hfuel (by simp)
    | succ f =>
      refine ⟨[(authenticate cred req, server req.uri)], ?_,
        by simp [authenticate_uri], by simp, ?_⟩
      · rw [paginateReq_succ, hnone]
      · intro rp hrp
        simp only [List.mem_singleton] at hrp
        subst hrp
        rfl
  | cons u u' us' ps' hnext htail ih =>
    intro fuel req hfuel hhead
    simp only [List.head?_cons, Option.some_inj] at hhead
    subst hhead
    cases fuel with
    | zero => exact absurd hfuel (by simp)
    | succ f =>
      have hlen : ps'.length ≤ f := by
        simpa [Nat.succ_le_succ_iff] using hfuel
      obtain ⟨rest, hrest, hu, hp, hm⟩ :=
        ih f (followUpRequest req u') hlen (by simp [followUpRequest])
      refine ⟨(authenticate cred req, server req.uri) :: rest, ?_, ?_, ?_, ?_⟩
      · rw [paginateReq_succ, hnext]
        show Option.map (fun rest => (authenticate cred req, server req.uri) :: rest)
          (paginateReq server cred f (followUpRequest req u')) = some
          ((authenticate cred req, server req.uri) :: rest)
        rw [hrest]
        rfl
      · simp [hu, authenticate_uri]
      · simp [hp]
      · intro rp hrp
        rcases List.mem_cons.mp hrp with hrp | hrp
        · subst hrp; rfl
        · exact hm rp hrp

/-! ## Dispatch lemmas for `processItem` and the item loop -/

/-- On Document/Read, `processItem` runs the paginated request and wraps
every element of every page's `results` as an output record. -/
theorem processItem_read_eq (env : Env) (it : Item) (idx : Nat)
    (hres : env.resource = Resource.document)
    (hop : env.operation = Operation.read) :
    processItem env it idx =
      match paginateReq env.server env.cred env.fuel (readFirstRequest env idx) with
      | none => none
      | some reqPages =>
        some (reqPages.map Prod.fst,
          Except.ok ((reqPages.map (fun rp =>
            rp.2.results.map (fun result => ({ json := result } : OutputRecord)))).flatten)) := by
  obtain ⟨cred, res, op, fp, sp, sv, us, cof, fuel, hi⟩ := env
  dsimp only at hres hop
  subst hres
  subst hop
  rfl

/-- On Document/Create with no binary attachment under the configured
field name, `processItem` fails with the missing-binary error having
issued no request. -/
theorem processItem_create_noBinary (env : Env) (it : Item) (idx : Nat)
    (hres : env.resource = Resource.document)
    (hop : env.operation = Operation.create)
    (hbin : it.binary.lookup (env.fileParam idx) = none) :
    processItem env it idx =
      some ([], Except.error (ProcError.missingBinary (env.fileParam idx))) := by
  obtain ⟨cred, res, op, fp, sp, sv, us, cof, fuel, hi⟩ := env
  dsimp only at hres hop hbin ⊢
  subst hres
  subst hop
  simp only [processItem, hbin]

/-- On Document/Create with a binary attachment under the configured
field name, `processItem` issues exactly the authenticated upload
request and, when the server answers, emits one `task_id` record. -/
theorem processItem_create_withBinary (env : Env) (it : Item) (idx : Nat)
    (bd : BinaryData)
    (hres : env.resource = Resource.document)
    (hop : env.operation = Operation.create)
    (hbin : it.binary.lookup (env.fileParam idx) = some bd) :
    processItem env it idx =
      match env.uploadServer (authenticate env.cred (createRequest env bd)) with
      | none => some ([authenticate env.cred (createRequest env bd)],
          Except.error ProcError.transport)
      | some resp => some ([authenticate env.cred (createRequest env bd)],
          Except.ok [{ json := Json.obj [("task_id", resp)] }]) := by
  obtain ⟨cred, res, op, fp, sp, sv, us, cof, fuel, hi⟩ := env
  dsimp only at hres hop hbin ⊢
  subst hres
  subst hop
  simp only [processItem, hbin]

/-- On an inert selection, `processItem` issues no request and produces
no record. -/
theorem processItem_inert (env : Env) (it : Item) (idx : Nat)
    (hin : inertSelection env.resource env.operation) :
    processItem env it idx = some ([], Except.ok []) := by
  obtain ⟨cred, res, op, fp, sp, sv, us, cof, fuel, hi⟩ := env
  dsimp only [inertSelection] at hin
  rcases hin with h | h | ⟨h, h2⟩
  · subst h; rfl
  · subst h; rfl
  · subst h
    rcases h2 with h2 | h2 <;> subst h2 <;> rfl

/-- Unfolding equation of the item loop at positive fuel. -/
theorem execLoop_succ (env : Env) (f : Nat) (items : List Item) (idx : Nat)
    (acc : List OutputRecord) (reqs : List Request) :
    execLoop env (f + 1) items idx acc reqs =
      match items.get? idx with
      | none => some { requests := reqs, outcome := Outcome.success acc }
      | some it =>
        match processItem env it idx with
        | none => none
        | some (newReqs, Except.ok recs) =>
          execLoop env f items (idx + 1) (acc ++ recs) (reqs ++ newReqs)
        | some (newReqs, Except.error e) =>
          if env.continueOnFail then
            execLoop env f (items ++ [errorItem env idx e]) (idx + 1) acc (reqs ++ newReqs)
          else
            some { requests := reqs ++ newReqs, outcome := Outcome.aborted e idx } := rfl

/-- Every request `processItem` issues is authenticated. -/
theorem processItem_authed (env : Env) (it : Item) (idx : Nat)
    (rs : List Request) (out : Except ProcError (List OutputRecord))
    (h : processItem env it idx = some (rs, out)) :
    ∀ q ∈ rs, authedOnce env.cred q := by
  cases hres : env.resource with
  | correspondent =>
    rw [processItem_inert env it idx (Or.inl hres)] at h
    simp only [Option.some_inj, Prod.mk.injEq] at h
    rw [← h.1]
    intro q hq
    exact absurd hq (List.not_mem_nil q)
  | documentType =>
    rw [processItem_inert env it idx (Or.inr (Or.inl hres))] at h
    simp only [Option.some_inj, Prod.mk.injEq] at h
    rw [← h.1]
    intro q hq
    exact absurd hq (List.not_mem_nil q)
  | document =>
    cases hop : env.operation with
    | update =>
      rw [processItem_inert env it idx (Or.inr (Or.inr ⟨hres, Or.inl hop⟩))] at h
      simp only [Option.some_inj, Prod.mk.injEq] at h
      rw [← h.1]
      intro q hq
      exact absurd hq (List.not_mem_nil q)
    | delete =>
      rw [processItem_inert env it idx (Or.inr (Or.inr ⟨hres, Or.inr hop⟩))] at h
      simp only [Option.some_inj, Prod.mk.injEq] at h
      rw [← h.1]
      intro q hq
      exact absurd hq (List.not_mem_nil q)
    | read =>
      rw [processItem_read_eq env it idx hres hop] at h
      cases hpag : paginateReq env.server env.cred env.fuel (readFirstRequest env idx) with
      | none => rw [hpag] at h; exact absurd h (by simp)
      | some rps =>
        rw [hpag] at h
        simp only [Option.some_inj, Prod.mk.injEq] at h
        intro q hq
        rw [← h.1] at hq
        simp only [List.mem_map] at hq
        obtain ⟨rp, hrp, hq⟩ := hq
        subst hq
        exact paginateReq_authed env.server env.cred env.fuel _ rps hpag rp hrp
    | create =>
      cases hbin : it.binary.lookup (env.fileParam idx) with
      | none =>
        rw [processItem_create_noBinary env it idx hres hop hbin] at h
        simp only [Option.some_inj, Prod.mk.injEq] at h
        rw [← h.1]
        intro q hq
        exact absurd hq (List.not_mem_nil q)
      | some bd =>
        rw [processItem_create_withBinary env it idx bd hres hop hbin] at h
        cases hus : env.uploadServer (authenticate env.cred (createRequest env bd)) with
        | none =>
          rw [hus] at h
          simp only [Option.some_inj, Prod.mk.injEq] at h
          intro q hq
          rw [← h.1] at hq
          simp only [List.mem_singleton] at hq
          subst hq
          exact authenticate_authedOnce env.cred _
        | some resp =>
          rw [hus] at h
          simp only [Option.some_inj, Prod.mk.injEq] at h
          intro q hq
          rw [← h.1] at hq
          simp only [List.mem_singleton] at hq
          subst hq
          exact authenticate_authedOnce env.cred _

/-- Every request a finished run has issued is authenticated, provided
the requests accumulated so far are. -/
theorem execLoop_authed (env : Env) :
    ∀ (f : Nat) (items : List Item) (idx : Nat) (acc : List OutputRecord)
      (reqs : List Request) (r : RunResult),
      (∀ q ∈ reqs, authedOnce env.cred q) →
      execLoop env f items idx acc reqs = some r →
      ∀ q ∈ r.requests, authedOnce env.cred q := by
  intro f
  induction f with
  | zero => intro items idx acc reqs r _ h; exact Option.noConfusion h
  | succ f ih =>
    intro items idx acc reqs r hreqs h
    cases hget : items.get? idx with
    | none =>
      simp only [execLoop_succ, hget, Option.some_inj] at h
      subst h
      exact hreqs
    | some it =>
      cases hpi : processItem env it idx with
      | none =>
        simp only [execLoop_succ, hget, hpi] at h
        exact Option.noConfusion h
      | some pr =>
        obtain ⟨newReqs, outp⟩ := pr
        have hnew : ∀ q ∈ reqs ++ newReqs, authedOnce env.cred q := by
          intro q hq
          rcases List.mem_append.mp hq with hq | hq
          · exact hreqs q hq
          · exact processItem_authed env it idx newReqs outp hpi q hq
        cases outp with
        | ok recs =>
          simp only [execLoop_succ, hget, hpi] at h
          exact ih items (idx + 1) (acc ++ recs) (reqs ++ newReqs) r hnew h
        | error e =>
          cases hcof : env.continueOnFail with
          | true =>
            simp only [execLoop_succ, hget, hpi, hcof, if_true] at h
            exact ih (items ++ [errorItem env idx e]) (idx + 1) acc (reqs ++ newReqs) r hnew h
          | false =>
            simp only [execLoop_succ, hget, hpi, hcof] at h
            rw [if_neg (by simp)] at h
            simp only [Option.some_inj] at h
            subst h
            exact hnew

/-- On an inert selection the loop walks all items, issues nothing and
accumulates nothing. -/
theorem execLoop_inert (env : Env) (hin : inertSelection env.resource env.operation) :
    ∀ (f : Nat) (items : List Item) (idx : Nat) (acc : List OutputRecord)
      (reqs : List Request), items.length ≤ idx + f →
      execLoop env (f + 1) items idx acc reqs =
        some { requests := reqs, outcome := Outcome.success acc } := by
  intro f
  induction f with
  | zero =>
    intro items idx acc reqs hfuel
    rw [execLoop_succ, List.get?_len_le (by simpa using hfuel)]
  | succ f ih =>
    intro items idx acc reqs hfuel
    cases hget : items.get? idx with
    | none => rw [execLoop_succ, hget]
    | some it =>
      have hpi := processItem_inert env it idx hin
      simp only [execLoop_succ, hget, hpi, List.append_nil]
      exact ih items (idx + 1) acc reqs (by omega)

/-- In abort mode, if every item before `k` succeeds and the item at `k`
fails, the loop returns the aborted outcome carrying the error and the
index `k`, and stops there. -/
theorem execLoop_abort (env : Env) (items : List Item) (k : Nat)
    (itk : Item) (rsk : List Request) (e : ProcError)
    (hcof : env.continueOnFail = false)
    (hgetk : items.get? k = some itk)
    (hfailk : processItem env itk k = some (rsk, Except.error e))
    (hok : ∀ j, j < k → ∀ it, items.get? j = some it →
      ∃ rs recs, processItem env it j = some (rs, Except.ok recs)) :
    ∀ (f : Nat) (idx : Nat) (acc : List OutputRecord) (reqs : List Request),
      idx ≤ k → k - idx < f →
      ∃ allReqs, execLoop env f items idx acc reqs =
        some { requests := allReqs, outcome := Outcome.aborted e k } := by
  intro f
  induction f with
  | zero => intro idx acc reqs _ hf; omega
  | succ f ih =>
    intro idx acc reqs hle hf
    rcases Nat.lt_or_ge idx k with hlt | hge
    · have hidxlen : idx < items.length := by
        have : k < items.length := by
          by_contra hco
          rw [List.get?_len_le (by omega)] at hgetk
          exact Option.noConfusion hgetk
        omega
      obtain ⟨it, hit⟩ : ∃ it, items.get? idx = some it := by
        rw [List.get?_eq_get hidxlen]
        exact ⟨_, rfl⟩
      obtain ⟨rs, recs, hpi⟩ := hok idx hlt it hit
      simp only [execLoop_succ, hit, hpi]
      exact ih (idx + 1) (acc ++ recs) (reqs ++ rs) (by omega) (by omega)
    · have hidx : idx = k := by omega
      subst hidx
      simp only [execLoop_succ, hgetk, hfailk, hcof]
      rw [if_neg (by simp)]
      exact ⟨reqs ++ rsk, rfl⟩

/-- In continue mode with Document/Create selected, as soon as some item
at or after the current index lacks its binary attachment, the loop
never terminates: the `catch` block appends the error record to the very
`items` list the loop iterates over, the appended record itself carries
no binary attachment, so processing it fails and appends again, forever. -/
theorem execLoop_diverges (env : Env)
    (hcof : env.continueOnFail = true)
    (hres : env.resource = Resource.document)
    (hop : env.operation = Operation.create) :
    ∀ (f : Nat) (items : List Item) (idx : Nat) (acc : List OutputRecord)
      (reqs : List Request),
      (∃ j itj, idx ≤ j ∧ items.get? j = some itj ∧
        itj.binary.lookup (env.fileParam j) = none) →
      execLoop env f items idx acc reqs = none := by
  intro f
  induction f with
  | zero => intro items idx acc reqs _; rfl
  | succ f ih =>
    intro items idx acc reqs hwit
    obtain ⟨j, itj, hij, hgetj, hbinj⟩ := hwit
    have hjlen : j < items.length := by
      by_contra hco
      rw [List.get?_len_le (by omega)] at hgetj
      exact Option.noConfusion hgetj
    have hidxlen : idx < items.length := by omega
    obtain ⟨it, hit⟩ : ∃ it, items.get? idx = some it := by
      rw [List.get?_eq_get hidxlen]
      exact ⟨_, rfl⟩
    cases hbin : it.binary.lookup (env.fileParam idx) with
    | none =>
      have hpi := processItem_create_noBinary env it idx hres hop hbin
      simp only [execLoop_succ, hit, hpi, hcof, if_true]
      refine ih _ (idx + 1) acc _ ⟨items.length, errorItem env idx
        (ProcError.missingBinary (env.fileParam idx)), by omega, ?_, rfl⟩
      exact List.get?_concat_length items _
    | some bd =>
      have hjne : j ≠ idx := by
        intro hje
        subst hje
        rw [hgetj] at hit
        simp only [Option.some_inj] at hit
        subst hit
        rw [hbinj] at hbin
        exact Option.noConfusion hbin
      have hpi := processItem_create_withBinary env it idx bd hres hop hbin
      cases hus : env.uploadServer (authenticate env.cred (createRequest env bd)) with
      | none =>
        simp only [hus] at hpi
        simp only [execLoop_succ, hit, hpi, hcof, if_true]
        refine ih _ (idx + 1) acc _ ⟨items.length, errorItem env idx
          ProcError.transport, by omega, ?_, rfl⟩
        exact List.get?_concat_length items _
      | some resp =>
        simp only [hus] at hpi
        simp only [execLoop_succ, hit, hpi]
        exact ih items (idx + 1) _ _ ⟨j, itj, by omega, hgetj, hbinj⟩

/-- Wrapping each page's results and concatenating commutes with
extracting the pages from the (request, page) pairs. -/
theorem flatten_records (rps : List (Request × Page)) :
    (rps.map (fun rp =>
        rp.2.results.map (fun result => ({ json := result } : OutputRecord)))).flatten =
      (((rps.map Prod.snd).map Page.results).flatten).map
        (fun result => ({ json := result } : OutputRecord)) := by
  simp only [List.map_flatten, List.map_map]
  rfl

/-! ## The claims -/

/-- C2: for a Document/Read against a server returning a finite chain of
pages (each page's `next` pointing to the following page's URL, the last
`next` null), the adapter issues exactly one GET per page — the first
against the base documents URL, each subsequent one against the previous
response's `next` — and emits exactly the concatenation of all pages'
`results`, in page-fetch order and in-page order, each wrapped as an
output record `{ json: result }`. -/
theorem spec_read_pagination (env : Env) (it : Item) (idx : Nat)
    (us : List String) (ps : List Page)
    (hres : env.resource = Resource.document)
    (hop : env.operation = Operation.read)
    (hchain : ServerChain env.server us ps)
    (hhead : us.head? = some (env.cred.domain ++ "/api/documents/"))
    (hfuel : ps.length ≤ env.fuel) :
    ∃ reqs, processItem env it idx = some (reqs,
        Except.ok (((ps.map Page.results).flatten).map
          (fun result => ({ json := result } : OutputRecord)))) ∧
      reqs.length = ps.length ∧
      reqs.map Request.uri = us ∧
      ∀ q ∈ reqs, q.method = "GET" := by
  obtain ⟨rps, hpag, hu, hp, hm⟩ :=
    paginateReq_chain env.server env.cred us ps hchain env.fuel
      (readFirstRequest env idx) hfuel hhead
  refine ⟨rps.map Prod.fst, ?_, ?_, ?_, ?_⟩
  · rw [processItem_read_eq env it idx hres hop]
    simp only [hpag, Option.some_inj]
    rw [flatten_records, hp]
  · rw [List.length_map, ← hp, List.length_map]
  · rw [List.map_map]
    simpa [Function.comp] using hu
  · intro q hq
    simp only [List.mem_map] at hq
    obtain ⟨rp, hrp, hq⟩ := hq
    subst hq
    exact hm rp hrp

/-- Witness for C2 at the two-page fixture server. -/
theorem spec_read_pagination_witness :
    ∃ reqs, processItem envRead itemOk 0 = some (reqs,
        Except.ok [{ json := Json.num 1 }, { json := Json.num 2 }]) ∧
      reqs.length = 2 ∧
      reqs.map Request.uri = ["http://p/api/documents/", "u2"] := by
  obtain ⟨reqs, h1, h2, h3, _⟩ := spec_read_pagination envRead itemOk 0
    ["http://p/api/documents/", "u2"]
    [{ results := [Json.num 1], next := some "u2" },
     { results := [Json.num 2], next := none }]
    rfl rfl
    (ServerChain.cons _ _ _ _ rfl (ServerChain.last _ rfl))
    rfl (by decide)
  refine ⟨reqs, ?_, ?_, h3⟩
  · rw [h1]; rfl
  · rw [h2]; rfl

/-- C7: for every configured search value — any string, the empty
string, or an absent value — the first Document/Read request targets the
base documents URL and carries the `search` query parameter exactly as
configured (absent stays absent, empty stays empty; the adapter applies
no transformation). -/
theorem spec_search_param (env : Env) (it : Item) (idx : Nat)
    {reqs : List Request} {out : Except ProcError (List OutputRecord)}
    (hres : env.resource = Resource.document)
    (hop : env.operation = Operation.read)
    (hrun : processItem env it idx = some (reqs, out)) :
    ∃ q, reqs.head? = some q ∧
      q.qs = [("search", env.searchParam idx)] ∧
      q.uri = env.cred.domain ++ "/api/documents/" := by
  rw [processItem_read_eq env it idx hres hop] at hrun
  cases hpag : paginateReq env.server env.cred env.fuel (readFirstRequest env idx) with
  | none =>
    rw [hpag] at hrun
    exact Option.noConfusion hrun
  | some rps =>
    rw [hpag] at hrun
    simp only [Option.some_inj, Prod.mk.injEq] at hrun
    obtain ⟨rest, hrps⟩ := paginateReq_head env.server env.cred env.fuel _ rps hpag
    refine ⟨authenticate env.cred (readFirstRequest env idx), ?_, rfl, rfl⟩
    rw [← hrun.1, hrps]
    rfl

/-- Witness for C7 with `search = "q"` at the fixture server. -/
theorem spec_search_param_witness :
    ∃ q : Request, q.qs = [("search", some "q")] ∧
      q.uri = "http://p" ++ "/api/documents/" := by
  obtain ⟨q, _, h2, h3⟩ := spec_search_param envRead itemOk 0 rfl rfl rfl
  exact ⟨q, h2, h3⟩

/-- C9: the pagination loop has no adapter-side bound: against a server
whose every response carries a non-null `next`, no amount of fuel lets
the loop return — a Document/Read item's pagination literally never
terminates. -/
theorem spec_unbounded_pagination (env : Env)
    (hall : ∀ u, (env.server u).next ≠ none)
    (hres : env.resource = Resource.document)
    (hop : env.operation = Operation.read) :
    (∀ (fuel : Nat) (req : Request), paginateReq env.server env.cred fuel req = none) ∧
    (∀ (it : Item) (idx : Nat), processItem env it idx = none) := by
  refine ⟨paginateReq_none_of_allNext env.server env.cred hall, ?_⟩
  intro it idx
  rw [processItem_read_eq env it idx hres hop,
    paginateReq_none_of_allNext env.server env.cred hall]

/-- Witness for C9 at the always-`next` fixture server. -/
theorem spec_unbounded_pagination_witness :
    paginateReq envLoop.server envLoop.cred 5 (readFirstRequest envLoop 0) = none ∧
      processItem envLoop itemOk 0 = none := by
  have h := spec_unbounded_pagination envLoop
    (fun u hu => Option.noConfusion hu) rfl rfl
  exact ⟨h.1 5 _, h.2 itemOk 0⟩

/-- C3: a Document/Create on an item carrying a binary attachment under
the configured field name issues exactly one request: an authenticated
multipart POST to `{domain}/api/documents/post_document/` whose single
file part is named `document` and carries the payload with the
attachment's declared filename and content type; and when the server
responds, it emits exactly one record `{ json: { task_id: <response> } }`
with the server's raw response. -/
theorem spec_create_upload (env : Env) (it : Item) (idx : Nat)
    (bd : BinaryData) (resp : Json)
    (hres : env.resource = Resource.document)
    (hop : env.operation = Operation.create)
    (hbin : it.binary.lookup (env.fileParam idx) = some bd)
    (hresp : env.uploadServer (authenticate env.cred (createRequest env bd)) = some resp) :
    processItem env it idx = some ([authenticate env.cred (createRequest env bd)],
        Except.ok [{ json := Json.obj [("task_id", resp)] }]) ∧
      (authenticate env.cred (createRequest env bd)).method = "POST" ∧
      (authenticate env.cred (createRequest env bd)).uri =
        env.cred.domain ++ "/api/documents/post_document/" ∧
      (authenticate env.cred (createRequest env bd)).formData = some
        { name := "document"
          value := match bd.id with
            | some sid => UploadData.stream sid
            | none => UploadData.buffer bd.data
          filename := bd.fileName
          contentType := bd.mimeType } := by
  refine ⟨?_, rfl, rfl, rfl⟩
  rw [processItem_create_withBinary env it idx bd hres hop hbin]
  simp only [hresp]

/-- Witness for C3 at the fixture upload server. -/
theorem spec_create_upload_witness :
    processItem envCreateAbort itemOk 0 =
      some ([authenticate credT (createRequest envCreateAbort bdT)],
        Except.ok [{ json := Json.obj [("task_id", Json.str "t1")] }]) ∧
      (authenticate credT (createRequest envCreateAbort bdT)).formData = some
        { name := "document", value := UploadData.buffer "QUJD",
          filename := some "a.pdf", contentType := "application/pdf" } := by
  have h := spec_create_upload envCreateAbort itemOk 0 bdT (Json.str "t1") rfl rfl rfl rfl
  exact ⟨h.1, h.2.2.2.trans rfl⟩

/-- C4: a Document/Create on an item with no binary attachment under the
configured field name fails with the missing-binary error before any
HTTP request is made: the request list attributable to that item is
empty. -/
theorem spec_create_missing_binary (env : Env) (it : Item) (idx : Nat)
    (hres : env.resource = Resource.document)
    (hop : env.operation = Operation.create)
    (hbin : it.binary.lookup (env.fileParam idx) = none) :
    processItem env it idx =
      some ([], Except.error (ProcError.missingBinary (env.fileParam idx))) :=
  processItem_create_noBinary env it idx hres hop hbin

/-- Witness for C4 at the attachment-less item. -/
theorem spec_create_missing_binary_witness :
    processItem envCreateAbort itemNoBin 0 =
      some ([], Except.error (ProcError.missingBinary "data")) :=
  spec_create_missing_binary envCreateAbort itemNoBin 0 rfl rfl rfl

/-- C5: in abort mode, the first per-item error halts the run
immediately: the result is the aborted outcome carrying the error and
the failing item's index, no further input item is processed, and no
output record — in particular none for any later item — is returned. -/
theorem spec_abort_mode (env : Env) (items : List Item) (k : Nat)
    (itk : Item) (rsk : List Request) (e : ProcError) (fuel : Nat)
    (hcof : env.continueOnFail = false)
    (hgetk : items.get? k = some itk)
    (hfailk : processItem env itk k = some (rsk, Except.error e))
    (hok : ∀ j, j < k → ∀ it, items.get? j = some it →
      ∃ rs recs, processItem env it j = some (rs, Except.ok recs))
    (hfuel : k < fuel) :
    ∃ allReqs, execute env items fuel =
      some { requests := allReqs, outcome := Outcome.aborted e k } :=
  execLoop_abort env items k itk rsk e hcof hgetk hfailk hok fuel 0 [] []
    (Nat.zero_le k) (by omega)

/-- Witness for C5: three Create items, the middle one without its
attachment, in abort mode — the run aborts at index 1. -/
theorem spec_abort_mode_witness :
    ∃ allReqs, execute envCreateAbort itemsC1 3 =
      some { requests := allReqs,
             outcome := Outcome.aborted (ProcError.missingBinary "data") 1 } := by
  refine spec_abort_mode envCreateAbort itemsC1 1 itemNoBin []
    (ProcError.missingBinary "data") 3 rfl rfl rfl ?_ (by decide)
  intro j hj it hget
  interval_cases j
  rw [show itemsC1.get? 0 = some itemOk from rfl] at hget
  injection hget with hit
  subst hit
  exact ⟨_, _, rfl⟩

/-- C6: every request a finished run has issued — Read page fetches and
Create uploads alike — and the credential test request carry the header
`Authorization: Token <token>` exactly once: the request's headers named
`Authorization` are exactly that one entry, so no duplicate and no
alternate scheme exists. -/
theorem spec_auth_header_once :
    (∀ (env : Env) (items : List Item) (fuel : Nat) (r : RunResult),
      execute env items fuel = some r →
      ∀ q ∈ r.requests, authedOnce env.cred q) ∧
    (∀ cred : Credentials, authedOnce cred (credTestRequest cred)) := by
  constructor
  · intro env items fuel r h
    refine execLoop_authed env fuel items 0 [] [] r ?_ h
    intro q hq
    exact absurd hq (List.not_mem_nil q)
  · intro cred
    exact authenticate_authedOnce cred _

/-- Witness for C6 at a concrete one-item Create run. -/
theorem spec_auth_header_once_witness :
    authedOnce credT (authenticate credT (createRequest envCreateAbort bdT)) ∧
      authedOnce credT (credTestRequest credT) :=
  ⟨spec_auth_header_once.1 envCreateAbort [itemOk] 2
      { requests := [authenticate credT (createRequest envCreateAbort bdT)],
        outcome := Outcome.success [{ json := Json.obj [("task_id", Json.str "t1")] }] }
      rfl (authenticate credT (createRequest envCreateAbort bdT))
      (List.mem_singleton.mpr rfl),
    spec_auth_header_once.2 credT⟩

/-- C8: when the selected pair is Correspondent or DocumentType with any
operation, or Document with Update or Delete, a whole run issues no HTTP
request and produces no output record — no observable effect for any
input item. -/
theorem spec_inert_selections (env : Env) (items : List Item) (fuel : Nat)
    (hin : inertSelection env.resource env.operation)
    (hfuel : items.length < fuel) :
    execute env items fuel =
      some { requests := [], outcome := Outcome.success [] } := by
  obtain ⟨f, rfl⟩ : ∃ f, fuel = f + 1 := ⟨fuel - 1, by omega⟩
  exact execLoop_inert env hin f items 0 [] [] (by omega)

/-- Witness for C8 on the Correspondent resource. -/
theorem spec_inert_selections_witness :
    execute envInert [itemOk, itemNoBin] 3 =
      some { requests := [], outcome := Outcome.success [] } :=
  spec_inert_selections envInert [itemOk, itemNoBin] 3 (Or.inl rfl) (by decide)

/-- C10: in continue mode the `catch` block appends the error record to
the very `items` list the loop iterates over, whose length the loop
condition re-reads each iteration, so the appended record is processed
as a further input item; since an appended error record carries no
binary attachment, a Document/Create run containing any item without its
attachment re-fails and re-appends forever: `execute` never returns. -/
theorem spec_error_items_reprocessed (env : Env) (items : List Item)
    (hcof : env.continueOnFail = true)
    (hres : env.resource = Resource.document)
    (hop : env.operation = Operation.create)
    (hwit : ∃ j itj, items.get? j = some itj ∧
      itj.binary.lookup (env.fileParam j) = none) :
    ∀ fuel, execute env items fuel = none := by
  intro fuel
  obtain ⟨j, itj, hg, hb⟩ := hwit
  exact execLoop_diverges env hcof hres hop fuel items 0 [] []
    ⟨j, itj, Nat.zero_le j, hg, hb⟩

/-- Witness for C10 at a single attachment-less Create item. -/
theorem spec_error_items_reprocessed_witness :
    execute envCreateCont [itemNoBin] 5 = none :=
  spec_error_items_reprocessed envCreateCont [itemNoBin] rfl rfl rfl
    ⟨0, itemNoBin, rfl, rfl⟩ 5

/-- C1 (counterexample to the specified continue-mode behaviour): in the
spec's own scenario — continue mode, Document/Create, three input items
where item 2 (index 1) lacks its attachment — the code never returns at
all: the error record is pushed onto the input `items` list rather than
onto `returnData`, is itself re-processed, fails again, and the loop
never terminates, so no output/error sequence with two success records
and one index-1 error record is ever produced. -/
theorem spec_continue_scenario_no_output :
    ∀ fuel, execute envCreateCont itemsC1 fuel = none := by
  intro fuel
  exact execLoop_diverges envCreateCont rfl rfl rfl fuel itemsC1 0 [] []
    ⟨1, itemNoBin, by omega, rfl, rfl⟩
